import Mathlib

/-!
Verification of the ACCEPT driver (`accept/commands.py`) and the ccv
application scorer (`apps/ccv/eval.py`) against its design specification.

Numbers that the Python code handles as floats are modelled as exact
rationals (`ℚ`); every scenario checked here is far from any rounding
boundary, so the classification outcomes are unaffected by the model.
Fallible operations (a Python exception) are modelled with `Option`.
-/

/-- `apps/ccv/eval.py`, `score(orig, relaxed)`: sum of `min(abs(a - b), 1.0)`
over `zip(orig, relaxed)`.  `zip` truncates to the shorter list, exactly as
`List.zipWith` does. -/
def scoreTotal (orig relaxed : List ℚ) : ℚ :=
  (List.zipWith (fun a b => min |a - b| 1) orig relaxed).sum

/-- `apps/ccv/eval.py`, `score(orig, relaxed) = total / len(orig)`.
Python raises `ZeroDivisionError` when `len(orig) == 0`; the failure is
modelled as `none`. -/
def score (orig relaxed : List ℚ) : Option ℚ :=
  if orig.length = 0 then none
  else some (scoreTotal orig relaxed / orig.length)

/-- Modelled from the spec: the classification step lives in the `core`
module, which is not part of the sources; spec §8 fixes the boundary rule as
"deviation ≤ T ⇒ good". -/
def classify (s tol : ℚ) : String :=
  if s ≤ tol then "good" else "bad"

/-- `accept/commands.py`, namedtuple `GlobalConfig` (the fields the claims
use; `client` and `keep_sandboxes` are irrelevant here). -/
structure GlobalConfig where
  reps : Int
  test_reps : Int
deriving DecidableEq, Repr

/-- `accept/commands.py`, `cli`: `test_reps = test_reps or reps`.  Python
`or` falls back whenever the left side is falsy, i.e. when the option is
unspecified (`None`) or specified as `0`. -/
def cliConfig (reps : Int) (test_reps : Option Int) : GlobalConfig :=
  { reps := reps
    test_reps :=
      match test_reps with
      | none => reps
      | some v => if v = 0 then reps else v }

/-- C9 helper: the per-pair deviation of an element with itself is zero. -/
theorem scoreTotal_self (xs : List ℚ) : scoreTotal xs xs = 0 := by
  unfold scoreTotal
  induction xs with
  | nil => simp
  | cons a t ih =>
      simp only [List.zipWith_cons_cons, List.sum_cons, ih, add_zero]
      simp

/-- C1: with the ccv scorer, baseline `[1,1,1]` and tolerance `0.05`, the
outputs `[1.02, 0.98, 1.01]` score `1/60 ≤ 0.05` and classify `good`, while
`[1.2, 0.8, 1.1]` score `1/6 > 0.05` and classify `bad`. -/
theorem ccv_scenario_good_bad :
    score [1, 1, 1] [51/50, 49/50, 101/100] = some (1/60)
    ∧ (1/60 : ℚ) ≤ 5/100
    ∧ classify (1/60) (5/100) = "good"
    ∧ score [1, 1, 1] [6/5, 4/5, 11/10] = some (1/6)
    ∧ ¬ ((1/6 : ℚ) ≤ 5/100)
    ∧ classify (1/6) (5/100) = "bad" := by
  refine ⟨?_, by norm_num, ?_, ?_, by norm_num, ?_⟩
  · show (if (3 : ℕ) = 0 then none else some (scoreTotal [1,1,1] [51/50,49/50,101/100] / 3)) = _
    norm_num [scoreTotal, abs_of_nonneg, abs_of_nonpos]
  · unfold classify
    norm_num
  · show (if (3 : ℕ) = 0 then none else some (scoreTotal [1,1,1] [6/5,4/5,11/10] / 3)) = _
    norm_num [scoreTotal, abs_of_nonneg, abs_of_nonpos]
  · unfold classify
    norm_num

/-- C9: for a non-empty list `xs`, scoring `xs` against itself yields
exactly zero deviation. -/
theorem score_self_eq_zero (xs : List ℚ) (h : xs ≠ []) : score xs xs = some 0 := by
  unfold score
  rw [if_neg (by simpa [List.length_eq_zero] using h)]
  rw [scoreTotal_self, zero_div]

/-- C9 witness: a concrete non-empty list has zero self-deviation. -/
theorem score_self_eq_zero_witness : score [(3 : ℚ)/2] [(3 : ℚ)/2] = some 0 :=
  score_self_eq_zero [(3 : ℚ)/2] (by decide)

/-- C10: the scorer is partial at the public boundary — an empty baseline
list makes `total / len(orig)` a division by zero, whatever the relaxed
list is. -/
theorem score_empty_orig_fails (relaxed : List ℚ) : score [] relaxed = none := rfl

/-- C2 counterexample: the claim says a specified test-replication value is
always carried, but specifying `0` (with search reps `3`) carries `3`,
because Python `or` treats `0` as falsy. -/
theorem cliConfig_zero_not_carried : (cliConfig 3 (some 0)).test_reps ≠ 0 := by decide

/-- C2 amended: an unspecified test-replication factor falls back to the
search factor, a specified nonzero value is carried, and a specified `0`
also falls back to the search factor. -/
theorem cliConfig_test_reps (reps : Int) :
    (cliConfig reps none).test_reps = reps
    ∧ (∀ v : Int, v ≠ 0 → (cliConfig reps (some v)).test_reps = v)
    ∧ (cliConfig reps (some 0)).test_reps = reps := by
  refine ⟨rfl, fun v hv => ?_, by simp [cliConfig]⟩
  simp [cliConfig, hv]

/-- C2 witness: with search reps `2`, leaving the option out carries `2`
and specifying `5` carries `5`. -/
theorem cliConfig_test_reps_witness :
    (cliConfig 2 none).test_reps = 2 ∧ (cliConfig 2 (some 5)).test_reps = 5 :=
  ⟨(cliConfig_test_reps 2).1, (cliConfig_test_reps 2).2.1 5 (by decide)⟩

/-! ## The `main` entry point (C5) -/

/-- Outcome of the command body `cli()` as `main` observes it: normal
return, a raised `core.UserError` carrying its rendered message `exc.log()`
and a formatted traceback, or any other exception `e`. -/
inductive CliOutcome (ε : Type) where
  | ok
  | userError (msg : String) (trace : String)
  | other (e : ε)

inductive LogLevel where
  | debug
  | error
deriving DecidableEq, Repr

/-- Observable effect of one execution of `main`: the log records it
emitted in order, the exit code it requested via `sys.exit`, and the
exception it let propagate, if any. -/
structure MainTrace (ε : Type) where
  logs : List (LogLevel × String)
  exitCode : Option Nat
  raised : Option ε

/-- `accept/commands.py`, `main()`: `try: cli() except core.UserError as
exc: logging.debug(traceback.format_exc()); logging.error(exc.log());
sys.exit(1)`.  Any other exception is not caught. -/
def mainEntry (outcome : CliOutcome ε) : MainTrace ε :=
  match outcome with
  | .ok => ⟨[], none, none⟩
  | .userError msg trace => ⟨[(.debug, trace), (.error, msg)], some 1, none⟩
  | .other e => ⟨[], none, some e⟩

/-- C5: a `UserError` logs its rendered message at error level and its
stack trace at debug level only, then exits with code 1; any other
exception propagates out of `main` unhandled. -/
theorem main_error_handling (msg trace : String) (e : ε) :
    mainEntry (.userError msg trace) =
      ({ logs := [(.debug, trace), (.error, msg)], exitCode := some 1,
         raised := none } : MainTrace ε)
    ∧ mainEntry (CliOutcome.other e) = { logs := [], exitCode := none, raised := some e } :=
  ⟨rfl, rfl⟩

/-! ## The `approx` command's configuration selection (C6) -/

/-- Python list indexing `xs[i]`: a negative index counts from the end;
an out-of-range index raises `IndexError`, modelled as `none`. -/
def pyIndex (xs : List α) (i : Int) : Option α :=
  let j : Int := if i < 0 then (xs.length : Int) + i else i
  if 0 ≤ j then xs.get? j.toNat else none

/-- `accept/commands.py`, `approx`: `results = [results[num]] if num != -1
else results`.  The list the command then prints; `none` models the
`IndexError` crash, in which case nothing is printed. -/
def approxSelect (results : List α) (num : Int) : Option (List α) :=
  if num = -1 then some results
  else (pyIndex results num).map (fun r => [r])

/-- C6 counterexample: with a single result and numeric argument `5`
(which is not `-1`), the command does not print exactly one result — it
raises `IndexError` and prints none. -/
theorem approxSelect_out_of_range : approxSelect [(0 : Int)] 5 = none := by decide

/-- C6 amended: `-1` selects every result in order; any other in-range
index (non-negative, or negative counting from the end as Python does)
selects exactly the one result at that index; an out-of-range index fails
with `IndexError` and selects nothing. -/
theorem approxSelect_cases (results : List α) (num : Int) :
    (num = -1 → approxSelect results num = some results)
    ∧ (num ≠ -1 → 0 ≤ num →
        approxSelect results num = (results.get? num.toNat).map (fun r => [r]))
    ∧ (num < 0 → num ≠ -1 → -(results.length : Int) ≤ num →
        approxSelect results num =
          (results.get? (results.length - (-num).toNat)).map (fun r => [r]))
    ∧ ((results.length : Int) ≤ num → num ≠ -1 → approxSelect results num = none)
    ∧ (num < -(results.length : Int) → num ≠ -1 → approxSelect results num = none) := by
  refine ⟨fun h => by simp [approxSelect, h], fun h h0 => ?_, fun hneg h hge => ?_,
    fun hge h => ?_, fun hlt h => ?_⟩
  · simp only [approxSelect, pyIndex, if_neg h, if_neg (not_lt.mpr h0), if_pos h0]
  · have hj : (0 : Int) ≤ (results.length : Int) + num := by omega
    have : ((results.length : Int) + num).toNat = results.length - (-num).toNat := by omega
    simp only [approxSelect, pyIndex, if_neg h, if_pos hneg, if_pos hj, this]
  · have hm1 : ¬ num < 0 := by omega
    have hj : (0 : Int) ≤ num := by omega
    have hnone : results.get? num.toNat = none := by
      rw [List.get?_eq_none]
      omega
    simp only [approxSelect, pyIndex, if_neg h, if_neg hm1, if_pos hj, hnone]
    rfl
  · have hneg : num < 0 := by omega
    have hj : ¬ (0 : Int) ≤ (results.length : Int) + num := by omega
    simp only [approxSelect, pyIndex, if_neg h, if_pos hneg, if_neg hj]
    rfl

/-- C6 witness: on a three-element result list, `-1` prints all three,
index `1` prints exactly the second, index `-3` prints exactly the first,
and indices `3` and `-4` are out of range. -/
theorem approxSelect_cases_witness :
    approxSelect [10, 20, 30] (-1) = some [10, 20, 30]
    ∧ approxSelect [10, 20, 30] 1 = some [20]
    ∧ approxSelect [10, 20, 30] (-3) = some [10]
    ∧ approxSelect [10, 20, 30] 3 = none
    ∧ approxSelect [10, 20, 30] (-4) = none := by
  refine ⟨(approxSelect_cases [10, 20, 30] (-1)).1 rfl, ?_, ?_, ?_, ?_⟩
  · rw [(approxSelect_cases [10, 20, 30] 1).2.1 (by decide) (by decide)]
    rfl
  · rw [(approxSelect_cases [10, 20, 30] (-3)).2.2.1 (by decide) (by decide) (by decide)]
    rfl
  · exact (approxSelect_cases [10, 20, 30] 3).2.2.2.1 (by decide) (by decide)
  · exact (approxSelect_cases [10, 20, 30] (-4)).2.2.2.2 (by decide) (by decide)

/-! ## `log_and_output` and the per-build log file (C7) -/

/-- Contents of the sandbox working directory: file name to contents. -/
def SandboxFS : Type := String → Option String

/-- `os.remove(fn)` after the `os.path.exists(fn)` guard. -/
def removeFile (fs : SandboxFS) (fn : String) : SandboxFS :=
  fun k => if k = fn then none else fs k

def writeFile (fs : SandboxFS) (fn contents : String) : SandboxFS :=
  fun k => if k = fn then some contents else fs k

/-- Modelled from the spec: `core.build` (not among the sources) runs the
compiler in the sandbox; per spec §6 it may emit an optimization-log file
(here: `emitted`, written to `fn`) and yields the compiler output. -/
def buildEffect (fs : SandboxFS) (fn : String) (emitted : Option String)
    (output : String) : SandboxFS × String :=
  (match emitted with
   | some s => writeFile fs fn s
   | none => fs,
   output)

/-- `accept/commands.py`, `log_and_output`: delete a pre-existing log file,
build, then read the log file the build produced (or take `''` when the
build produced none) and return it with the build output. -/
def log_and_output (fs : SandboxFS) (fn : String) (emitted : Option String)
    (output : String) : SandboxFS × (String × String) :=
  let fs1 := removeFile fs fn
  let p := buildEffect fs1 fn emitted output
  let log := (p.1 fn).getD ""
  (p.1, (log, p.2))

/-- C7: the pre-existing log file is gone from the state the build runs in,
and the function returns exactly the log contents the build emitted
(empty string when it emitted none) together with the build output. -/
theorem log_and_output_spec (fs : SandboxFS) (fn : String)
    (emitted : Option String) (output : String) :
    removeFile fs fn fn = none
    ∧ (log_and_output fs fn emitted output).2 = (emitted.getD "", output) := by
  refine ⟨by simp [removeFile], ?_⟩
  cases emitted with
  | none => simp [log_and_output, buildEffect, removeFile]
  | some s => simp [log_and_output, buildEffect, writeFile]

/-! ## The `approx` command's per-result printing (C8) -/

/-- One `EvaluationResult` as `approx` prints it: an opaque configuration
description, per-replicate outputs, per-replicate durations (`none` marks a
failed replicate), and the status descriptor. -/
structure EvalResult where
  config : String
  outputs : List String
  durations : List (Option ℚ)
  desc : String
deriving DecidableEq

/-- One line printed by the `approx` loop.  A duration is either the
`'  (error)'` marker or the `'  {:.2f}'`-formatted seconds value (kept as
the exact number; the formatting itself is out of scope). -/
inductive PrintLine where
  | configLine (s : String)
  | outputHeader
  | outputLine (s : String)
  | timeHeader
  | timeError
  | timeValue (t : ℚ)
  | descLine (s : String)
  | blank
deriving DecidableEq

/-- `accept/commands.py`, `approx` loop body: `'  (error)'` for a `None`
duration, the formatted seconds value otherwise. -/
def renderDuration : Option ℚ → PrintLine
  | none => .timeError
  | some t => .timeValue t

/-- `accept/commands.py`, `approx` loop body: config dump, `output:` block,
`time:` block, the descriptor only when it differs from `'good'`, then a
blank line. -/
def renderResult (r : EvalResult) : List PrintLine :=
  [.configLine r.config, .outputHeader]
    ++ r.outputs.map .outputLine
    ++ [.timeHeader]
    ++ r.durations.map renderDuration
    ++ (if r.desc = "good" then [] else [.descLine r.desc])
    ++ [.blank]

/-- C8 counterexample: for a result whose descriptor is `good`, no
descriptor line is printed at all, contradicting "the configuration's
status descriptor is printed alongside the timings". -/
theorem renderResult_good_no_desc :
    PrintLine.descLine "good" ∉ renderResult ⟨"cfg", [], [some 1], "good"⟩ := by
  decide

/-- The rendering of a duration is never a descriptor line. -/
theorem renderDuration_ne_descLine (a : Option ℚ) (s : String) :
    renderDuration a ≠ PrintLine.descLine s := by
  cases a <;> simp [renderDuration]

/-- C8 amended: the `i`-th printed time line is exactly the rendering of
the `i`-th duration — the error marker for a failed replicate (`none`), the
seconds value otherwise — and the status descriptor line is printed exactly
when the descriptor is not `good`. -/
theorem renderResult_lines (r : EvalResult) :
    (∀ i, i < r.durations.length →
        (renderResult r).get? (3 + r.outputs.length + i)
          = (r.durations.get? i).map renderDuration)
    ∧ renderDuration none = .timeError
    ∧ (∀ t, renderDuration (some t) = .timeValue t)
    ∧ (PrintLine.descLine r.desc ∈ renderResult r ↔ r.desc ≠ "good") := by
    refine ⟨fun i hi => ?_, rfl, fun t => rfl, ?_⟩
    · have hlen : ([PrintLine.configLine r.config, PrintLine.outputHeader]
          ++ r.outputs.map PrintLine.outputLine ++ [PrintLine.timeHeader]).length
          = 3 + r.outputs.length := by
        simp
        omega
      have hsplit : renderResult r
          = ([PrintLine.configLine r.config, PrintLine.outputHeader]
              ++ r.outputs.map PrintLine.outputLine ++ [PrintLine.timeHeader])
            ++ (r.durations.map renderDuration
              ++ ((if r.desc = "good" then []
                   else [PrintLine.descLine r.desc]) ++ [PrintLine.blank])) := by
        simp [renderResult]
      rw [hsplit, List.get?_append_right (by omega), hlen]
      have hidx : 3 + r.outputs.length + i - (3 + r.outputs.length) = i := by omega
      rw [hidx, List.get?_append (by simpa using hi), List.get?_map]
    · by_cases hgood : r.desc = "good"
      · simp [renderResult, hgood, renderDuration_ne_descLine]
      · simp [renderResult, hgood]

/-- C8 witness: for a concrete result with one failed and one successful
replicate and a non-`good` descriptor, the first time line is the error
marker, the second the seconds value, and the descriptor line is printed. -/
theorem renderResult_lines_witness :
    (renderResult ⟨"cfg", ["out"], [none, some 2], "bad"⟩).get? 4
        = some PrintLine.timeError
    ∧ (renderResult ⟨"cfg", ["out"], [none, some 2], "bad"⟩).get? 5
        = some (PrintLine.timeValue 2)
    ∧ PrintLine.descLine "bad" ∈ renderResult ⟨"cfg", ["out"], [none, some 2], "bad"⟩ := by
  refine ⟨?_, ?_, ?_⟩
  · have h := (renderResult_lines ⟨"cfg", ["out"], [none, some 2], "bad"⟩).1 0 (by decide)
    simpa using h
  · have h := (renderResult_lines ⟨"cfg", ["out"], [none, some 2], "bad"⟩).1 1 (by decide)
    simpa using h
  · exact (renderResult_lines ⟨"cfg", ["out"], [none, some 2], "bad"⟩).2.2.2.mpr
      (by decide)

/-! ## The memoizing client and the `log` command (C4) -/

/-- A job submitted through the memo client for the fixed callable
`log_and_output`: the application directory positional argument, and the
`keep` keyword argument as actually passed at the call site (`none` when
the call does not pass it).  Modelled from the spec: per §4.1 the
fingerprint discriminates on any difference in argument values — the
canonicalization clause covers only keyword *ordering* — so this value is
the job's fingerprint: two jobs are the same computation exactly when they
are equal. -/
structure Job where
  appdir : String
  keep : Option Bool
deriving DecidableEq

/-- Modelled from the spec: the memoizing client of §4.4 (module `cwmemo`,
not among the sources), with force mode off.  `store` is the persistent
memo store, `inflight` the fingerprints forwarded to the dispatch backend
whose computations are executing, and `invocations j` counts executions of
the underlying callable for the job `j`. -/
structure MemoClient (ι ρ : Type) where
  store : ι → Option ρ
  inflight : List ι
  invocations : ι → Nat

/-- Modelled from the spec: `submit` computes the job's fingerprint; on a
store hit the job is already satisfied (no dispatch); otherwise it is
forwarded to the dispatch backend, which begins executing it — exactly
once per fingerprint, a later submitter attaching to the in-flight
computation instead of starting a duplicate (§4.3). -/
def MemoClient.submit [DecidableEq ι] (c : MemoClient ι ρ) (j : ι) : MemoClient ι ρ :=
  match c.store j with
  | some _ => c
  | none =>
      if j ∈ c.inflight then c
      else
        { c with
          inflight := j :: c.inflight
          invocations := fun k => if k = j then c.invocations k + 1 else c.invocations k }

/-- Modelled from the spec: `get` returns the cached result on a store
hit; otherwise it awaits the matching in-flight computation, or — when no
submit for that fingerprint preceded — performs the synchronous fallback
of §4.3, a fresh submit immediately followed by the await, executing the
callable once more.  Either way the result is inserted into the store
before being returned. -/
def MemoClient.get [DecidableEq ι] (run : ι → ρ) (c : MemoClient ι ρ) (j : ι) :
    MemoClient ι ρ × ρ :=
  match c.store j with
  | some r => (c, r)
  | none =>
      let r := run j
      if j ∈ c.inflight then
        ({ c with store := fun k => if k = j then some r else c.store k }, r)
      else
        ({ c with
           store := fun k => if k = j then some r else c.store k
           invocations := fun k => if k = j then c.invocations k + 1 else c.invocations k },
         r)

/-- `accept/commands.py`, `log` (and identically `build`):
`client.submit(log_and_output, appdir, keep=ctx.obj.keep_sandboxes)`
followed by `client.get(log_and_output, appdir)` — the submit passes the
`keep` keyword argument, the get does not. -/
def logCommand (run : Job → ρ) (c : MemoClient Job ρ) (appdir : String)
    (keep_sandboxes : Bool) : MemoClient Job ρ × ρ :=
  let c1 := c.submit ⟨appdir, some keep_sandboxes⟩
  c1.get run ⟨appdir, none⟩

/-- C4: the claim fails on the code.  At `accept -k log DIR` the submit
call's job carries `keep=True` while the get call's job carries no `keep`
argument, so the two calls denote different Jobs (different fingerprints
per spec §4.1).  On a fresh client the command therefore invokes the build
callable twice — once for the submitted job and once for the get's
synchronous-fallback execution — and the get returns the fallback's
result, not the submitted execution's. -/
theorem logCommand_double_build (run : Job → ρ) (appdir : String) :
    (⟨appdir, some true⟩ : Job) ≠ ⟨appdir, none⟩
    ∧ (logCommand run ⟨fun _ => none, [], fun _ => 0⟩ appdir true).1.invocations
        ⟨appdir, some true⟩ = 1
    ∧ (logCommand run ⟨fun _ => none, [], fun _ => 0⟩ appdir true).1.invocations
        ⟨appdir, none⟩ = 1
    ∧ (logCommand run ⟨fun _ => none, [], fun _ => 0⟩ appdir true).2
        = run ⟨appdir, none⟩ := by
  have hne : (⟨appdir, some true⟩ : Job) ≠ ⟨appdir, none⟩ := by simp
  refine ⟨hne, ?_, ?_, ?_⟩ <;>
    simp [logCommand, MemoClient.submit, MemoClient.get, hne, Ne.symm hne]

/-! ## The `exp` command's persisted JSON report (C3) -/

/-- A JSON object mapping configuration keys to recorded metrics. -/
def ReportDict (α : Type) : Type := String → Option α

/-- Python `old.update(new)`: the entries of both, `new` winning on a key
collision. -/
def updateDict (old new : ReportDict α) : ReportDict α :=
  fun k =>
    match new k with
    | some v => some v
    | none => old k

def emptyDict : ReportDict α := fun _ => none

/-- The persisted report: benchmark name to its configuration entries. -/
def Report (α : Type) : Type := String → Option (ReportDict α)

/-- `accept/commands.py`, `exp` loop body (JSON branch): `if appname not in
results_json: results_json[appname] = {}` then
`results_json[appname].update(res)`. -/
def expStep (report : Report α) (appname : String) (res : ReportDict α) : Report α :=
  fun n =>
    if n = appname then some (updateDict ((report appname).getD emptyDict) res)
    else report n

/-- `accept/commands.py`, `exp`: one run over the argument directories,
each contributing its basename and its newly computed entries. -/
def expRun (report : Report α) (runs : List (String × ReportDict α)) : Report α :=
  runs.foldl (fun r p => expStep r p.1 p.2) report

/-- All entries the run newly computes for benchmark `n`, later
directories winning over earlier ones on a key collision. -/
def newFor (runs : List (String × ReportDict α)) (n : String) : ReportDict α :=
  runs.foldl (fun acc p => if p.1 = n then updateDict acc p.2 else acc) emptyDict

theorem updateDict_empty_right (a : ReportDict α) : updateDict a emptyDict = a :=
  funext fun _ => rfl

theorem updateDict_empty_left (b : ReportDict α) : updateDict emptyDict b = b := by
  funext k
  unfold updateDict
  cases h : b k with
  | none => rfl
  | some v => rfl

theorem updateDict_assoc (a b c : ReportDict α) :
    updateDict (updateDict a b) c = updateDict a (updateDict b c) := by
  funext k
  unfold updateDict
  cases hc : c k with
  | none => cases hb : b k <;> rfl
  | some v => rfl

theorem newFor_foldl (runs : List (String × ReportDict α)) (n : String)
    (acc : ReportDict α) :
    runs.foldl (fun a p => if p.1 = n then updateDict a p.2 else a) acc
      = updateDict acc (newFor runs n) := by
  induction runs generalizing acc with
  | nil => exact (updateDict_empty_right acc).symm
  | cons p rest ih =>
      show List.foldl _ (if p.1 = n then updateDict acc p.2 else acc) rest = _
      by_cases hp : p.1 = n
      · rw [if_pos hp, ih]
        have hr : newFor (p :: rest) n
            = updateDict (updateDict emptyDict p.2) (newFor rest n) := by
          show List.foldl _ (if p.1 = n then updateDict emptyDict p.2 else emptyDict) rest = _
          rw [if_pos hp, ih]
        rw [hr, updateDict_empty_left, updateDict_assoc]
      · rw [if_neg hp, ih]
        have hr : newFor (p :: rest) n = newFor rest n := by
          show List.foldl _ (if p.1 = n then updateDict emptyDict p.2 else emptyDict) rest = _
          rw [if_neg hp]
          rfl
        rw [hr]

theorem newFor_cons (m : String) (res : ReportDict α)
    (rest : List (String × ReportDict α)) (n : String) :
    newFor ((m, res) :: rest) n
      = if m = n then updateDict res (newFor rest n) else newFor rest n := by
  by_cases hp : m = n
  · rw [if_pos hp]
    show List.foldl _ (if m = n then updateDict emptyDict res else emptyDict) rest = _
    rw [if_pos hp, newFor_foldl, updateDict_empty_left]
  · rw [if_neg hp]
    show List.foldl _ (if m = n then updateDict emptyDict res else emptyDict) rest = _
    rw [if_neg hp]
    rfl

theorem newFor_not_mem (runs : List (String × ReportDict α)) (n : String)
    (h : n ∉ runs.map Prod.fst) : newFor runs n = emptyDict := by
  induction runs with
  | nil => rfl
  | cons p rest ih =>
      obtain ⟨m, res⟩ := p
      rw [newFor_cons]
      have hp : m ≠ n := fun he => h (by simp [he])
      rw [if_neg hp]
      exact ih fun hm => h (by simp [hm])

theorem expRun_cons (init : Report α) (m : String) (res : ReportDict α)
    (rest : List (String × ReportDict α)) :
    expRun init ((m, res) :: rest) = expRun (expStep init m res) rest := rfl

/-- C3: after one `exp` run with JSON output, the report maps every
evaluated benchmark to the union of its previously recorded entries and
the newly computed ones (new entries winning on key collision), and every
benchmark not evaluated in the run keeps its previous entries unchanged. -/
theorem exp_report_merge (init : Report α) (runs : List (String × ReportDict α)) :
    (∀ n, n ∈ runs.map Prod.fst →
        expRun init runs n
          = some (updateDict ((init n).getD emptyDict) (newFor runs n)))
    ∧ (∀ n, n ∉ runs.map Prod.fst → expRun init runs n = init n) := by
  induction runs generalizing init with
  | nil =>
      exact ⟨fun n h => absurd h (List.not_mem_nil n), fun n _ => rfl⟩
  | cons p rest ih =>
      obtain ⟨m, res⟩ := p
      constructor
      · intro n hn
        rw [expRun_cons, newFor_cons]
        by_cases hns : n ∈ rest.map Prod.fst
        · rw [(ih (expStep init m res)).1 n hns]
          by_cases hm : m = n
          · rw [if_pos hm]
            have h1 : expStep init m res n
                = some (updateDict ((init n).getD emptyDict) res) := by
              show (if n = m then some (updateDict ((init m).getD emptyDict) res)
                    else init n) = _
              rw [if_pos hm.symm, hm]
            rw [h1]
            show some (updateDict (updateDict ((init n).getD emptyDict) res)
              (newFor rest n)) = _
            rw [updateDict_assoc]
          · rw [if_neg hm]
            have h1 : expStep init m res n = init n := by
              show (if n = m then some (updateDict ((init m).getD emptyDict) res)
                    else init n) = init n
              rw [if_neg fun he => hm he.symm]
            rw [h1]
        · have hm : m = n := by
            rcases (by simpa using hn : n = m ∨ ∃ x, (n, x) ∈ rest) with h | ⟨x, hx⟩
            · exact h.symm
            · exact absurd (List.mem_map_of_mem Prod.fst hx) hns
          rw [if_pos hm, (ih (expStep init m res)).2 n hns,
            newFor_not_mem rest n hns, updateDict_empty_right]
          show (if n = m then some (updateDict ((init m).getD emptyDict) res)
                else init n) = _
          rw [if_pos hm.symm, hm]
      · intro n hn
        have hm : n ≠ m := fun he => hn (by simp [he])
        have hns : n ∉ rest.map Prod.fst := fun hr => hn (by simp [hr])
        rw [expRun_cons, (ih (expStep init m res)).2 n hns]
        show (if n = m then some (updateDict ((init m).getD emptyDict) res)
              else init n) = init n
        rw [if_neg hm]

/-- C3 witness: starting from a report where benchmark `a` already maps key
`x` to `1`, a run evaluating `a` with the single new entry `x = 2` updates
`a` to map `x` to `2`, and the unevaluated benchmark `b` keeps its
previous (absent) entry. -/
theorem exp_report_merge_witness :
    (expRun
        (fun n => if n = "a" then some (fun k => if k = "x" then some 1 else none)
                  else none)
        [("a", fun k => if k = "x" then some 2 else none)] "a").map
        (fun d => (d "x", d "y"))
      = some (some 2, none)
    ∧ expRun
        (fun n => if n = "a" then some (fun k => if k = "x" then some 1 else none)
                  else none)
        [("a", fun k => if k = "x" then some 2 else none)] "b"
      = none := by
  constructor
  · rw [(exp_report_merge
      (fun n => if n = "a" then some (fun k => if k = "x" then some 1 else none)
                else none)
      [("a", fun k => if k = "x" then some 2 else none)]).1 "a" (by simp)]
    rfl
  · exact (exp_report_merge
      (fun n => if n = "a" then some (fun k => if k = "x" then some 1 else none)
                else none)
      [("a", fun k => if k = "x" then some 2 else none)]).2 "b" (by simp)
